import Mathlib

/-!
Verification of the execution-tree reconstruction and incremental rendering
core of the polaris extension (src/components/AssistantMessage.tsx).

The TypeScript source is shallowly embedded as executable Lean definitions:

* JavaScript string values that the source tests for truthiness are modelled
  as `Option String`; `none` stands for `undefined`/`null`/missing, and the
  empty string is falsy exactly as in JavaScript (`jsStr` normalises).
* Insertion-ordered JavaScript `Map`s and plain objects are modelled as
  association lists (`List (String × _)`); `Map.set` / property assignment
  replaces the value in place keeping the key's position (`setAssoc`).
* The `childAgent` object reference stored by the linking pass is modelled as
  the `runId` key of the referenced node in the tree map.
* Payload values typed `any` in the source are modelled by their string
  payloads (the only values the verified logic inspects for truthiness).
-/

/-- JavaScript truthiness on an optional string: `some ""` and `none` are
falsy (`x || null` yields `null` for both). -/
def jsStr (o : Option String) : Option String :=
  match o with
  | none => none
  | some s => if s = "" then none else some s

/-- JavaScript `x || ''`. -/
def jsGetD (o : Option String) : String :=
  (jsStr o).getD ""

/-- JavaScript `a || b || null` for optional strings. -/
def jsOr (a b : Option String) : Option String :=
  match jsStr a with
  | some s => some s
  | none => jsStr b

/-- The event tags of the stream (`EventType` in the source). -/
inductive EventType where
  | start
  | finish
  | chunkText
  | chunkSubAgentText
  | toolCallStart
  | toolResult
  | chunkTable
  | chunkCode
  | chunkChart
deriving DecidableEq, Repr

/-- The optional payload bag of a stream event. Fields the source reads are
kept; values are the string payloads the logic inspects. -/
structure Payload where
  messageId : Option String := none
  ptype : Option String := none
  thinking : Option String := none
  content : Option String := none
  finalAnswer : Option String := none
  suggestion : Option String := none
  toolCallId : Option String := none
  toolName : Option String := none
  args : Option String := none
  toolResult : Option String := none
deriving DecidableEq, Repr

/-- One immutable stream event (`StreamEvent` in the source). -/
structure StreamEvent where
  type : EventType
  runId : String
  parentId : Option String := none
  toolCallId : Option String := none
  agentId : Option String := none
  timestamp : String
  payload : Option Payload := none
deriving DecidableEq, Repr

/-- The candidate's `payload?.messageId` optional chain. -/
def payloadMessageId (e : StreamEvent) : Option String :=
  e.payload.bind (·.messageId)

/-- The `payload?.toolCallId` optional chain, JS-truthiness normalised
(the source always guards it with a truthy test). -/
def payloadToolCallId (e : StreamEvent) : Option String :=
  jsStr (e.payload.bind (·.toolCallId))

/-- Duplicate test of the accumulating effect: candidate `event` matches an
already stored event `e` when `runId`, `type`, `timestamp` and
`payload?.messageId` all agree. -/
def matchesDup (event e : StreamEvent) : Bool :=
  e.runId = event.runId && e.type = event.type &&
    e.timestamp = event.timestamp && payloadMessageId e = payloadMessageId event

/-- The `setEvents` updater: append the candidate unless a stored event
matches its `(runId, type, timestamp, payload.messageId)` tuple. -/
def appendEvent (prev : List StreamEvent) (event : StreamEvent) : List StreamEvent :=
  if prev.any (matchesDup event) then prev else prev ++ [event]

/-! ### Association lists standing for insertion-ordered maps -/

/-- Lookup in an association list (JS `map.get(k)` / `obj[k]`). -/
def alookup {α : Type} : List (String × α) → String → Option α
  | [], _ => none
  | p :: rest, k => if p.1 = k then some p.2 else alookup rest k

/-- JS `map.set(k, v)`: replace in place when the key exists (keeping its
position), otherwise append at the end. -/
def setAssoc {α : Type} : List (String × α) → String → α → List (String × α)
  | [], k, v => [(k, v)]
  | p :: rest, k, v => if p.1 = k then (k, v) :: rest else p :: setAssoc rest k v

/-- Update the value at a key when present; no-op otherwise. -/
def updateAssoc {α : Type} : List (String × α) → String → (α → α) → List (String × α)
  | [], _, _ => []
  | p :: rest, k, f => if p.1 = k then (p.1, f p.2) :: rest else p :: updateAssoc rest k f

/-! ### Execution tree -/

/-- One tool invocation inside an execution node (`ToolCallNode`).
`childAgent` holds the `runId` of the linked child node, standing for the
object reference stored by the source. -/
structure ToolCallNode where
  toolCallId : String
  toolName : String
  startEvent : StreamEvent
  resultEvent : Option StreamEvent
  childAgent : Option String
deriving DecidableEq, Repr

/-- One agent run (`ExecutionNode`). -/
structure ExecutionNode where
  runId : String
  parentId : Option String
  toolCallId : Option String
  agentId : Option String
  events : List StreamEvent
  toolCalls : List (String × ToolCallNode)
  startTime : Option String
  endTime : Option String
deriving DecidableEq, Repr

/-- The execution tree: `runId`-keyed, insertion-ordered node map. -/
abbrev ExecutionTree := List (String × ExecutionNode)

/-- Fresh node created the first time a `runId` is seen (step 1),
taking `parentId`/`toolCallId`/`agentId` from that first event with the
source's `|| null` normalisation. -/
def initNode (event : StreamEvent) : ExecutionNode :=
  { runId := event.runId
    parentId := jsStr event.parentId
    toolCallId := jsStr event.toolCallId
    agentId := jsStr event.agentId
    events := []
    toolCalls := []
    startTime := none
    endTime := none }

/-- Step 1 body: skip events with a falsy `runId`, create the node on first
sight, and push the event onto its bucket. -/
def groupStep (nodes : ExecutionTree) (event : StreamEvent) : ExecutionTree :=
  if event.runId = "" then nodes
  else
    let nodes1 :=
      if (alookup nodes event.runId).isSome then nodes
      else nodes ++ [(event.runId, initNode event)]
    updateAssoc nodes1 event.runId (fun n => { n with events := n.events ++ [event] })

/-- Step 1: group events by `runId` into execution nodes. -/
def groupEvents (events : List StreamEvent) : ExecutionTree :=
  events.foldl groupStep []

/-- Step 2: derive `startTime`/`endTime` from the first `start`/`finish`
events, falling back to the first/last event timestamp (JS `||` chains). -/
def setTimes (node : ExecutionNode) : ExecutionNode :=
  let startEvent := node.events.find? (fun e => e.type = EventType.start)
  let finishEvent := node.events.find? (fun e => e.type = EventType.finish)
  { node with
    startTime := jsOr (startEvent.map (·.timestamp)) (node.events.head?.map (·.timestamp))
    endTime := jsOr (finishEvent.map (·.timestamp)) (node.events.getLast?.map (·.timestamp)) }

/-- Step 3 body: a `tool-call-start` with a truthy `payload.toolCallId`
creates (or replaces) an entry; a `tool-result` with a truthy id updates the
matching entry's `resultEvent` when one exists and is dropped otherwise. -/
def toolCallStep (tcs : List (String × ToolCallNode)) (event : StreamEvent) :
    List (String × ToolCallNode) :=
  if event.type = EventType.toolCallStart then
    match payloadToolCallId event with
    | some tcId =>
        setAssoc tcs tcId
          { toolCallId := tcId
            toolName := (jsStr (event.payload.bind (·.toolName))).getD "unknown"
            startEvent := event
            resultEvent := none
            childAgent := none }
    | none => tcs
  else if event.type = EventType.toolResult then
    match payloadToolCallId event with
    | some tcId =>
        match alookup tcs tcId with
        | some _ => updateAssoc tcs tcId (fun tc => { tc with resultEvent := some event })
        | none => tcs
    | none => tcs
  else tcs

/-- Step 3: scan a node's events once to populate `toolCalls`. -/
def buildToolCalls (events : List StreamEvent) : List (String × ToolCallNode) :=
  events.foldl toolCallStep []

/-- Step 3 applied to one node. -/
def processToolEvents (node : ExecutionNode) : ExecutionNode :=
  { node with toolCalls := buildToolCalls node.events }

/-- The `toolCall.childAgent = node` assignment of step 4, on the tool-call
map of the parent. -/
def setChildAgent (tcs : List (String × ToolCallNode)) (tcid runId : String) :
    List (String × ToolCallNode) :=
  updateAssoc tcs tcid (fun tc => { tc with childAgent := some runId })

/-- Step 4 body: a node carrying both `parentId` and `toolCallId` links
itself as `childAgent` of the matching tool call in the parent node, when
both parent and tool call exist. -/
def linkStep (acc : ExecutionTree) (node : ExecutionNode) : ExecutionTree :=
  match node.parentId, node.toolCallId with
  | some pid, some tcid =>
      match alookup acc pid with
      | some parent =>
          match alookup parent.toolCalls tcid with
          | some _ =>
              updateAssoc acc pid (fun p =>
                { p with toolCalls := setChildAgent p.toolCalls tcid node.runId })
          | none => acc
      | none => acc
  | _, _ => acc

/-- Step 4: link sub-agents over a snapshot of the node values. -/
def linkChildren (nodes : ExecutionTree) : ExecutionTree :=
  (nodes.map (·.2)).foldl linkStep nodes

/-- `buildExecutionTree`: group, derive times, extract tool calls, link. -/
def buildExecutionTree (events : List StreamEvent) : ExecutionTree :=
  linkChildren
    (((groupEvents events).map (fun p => (p.1, setTimes p.2))).map
      (fun p => (p.1, processToolEvents p.2)))

/-- The rendered roots: nodes with a falsy `parentId`, in tree order. -/
def rootNodes (tree : ExecutionTree) : List ExecutionNode :=
  (tree.map (·.2)).filter (fun n => n.parentId = none)

/-- The `childAgent` reference of tool call `t` inside node `p`. -/
def childAgentAt (tree : ExecutionTree) (p t : String) : Option String :=
  (alookup tree p).bind (fun n => (alookup n.toolCalls t).bind (·.childAgent))

/-- The `resultEvent` of tool call `t` inside node `p`. -/
def resultEventAt (tree : ExecutionTree) (p t : String) : Option StreamEvent :=
  (alookup tree p).bind (fun n => (alookup n.toolCalls t).bind (·.resultEvent))

/-! ### Message consolidator (`processedData`) -/

/-- One consolidated message entry of the per-node message map. -/
structure ConsolidatedMessage where
  messageId : String
  event : StreamEvent
  thinking : String
  textContent : String
  finalAnswer : String
  structuredContent : Option String
  suggestion : String
  orderIndex : Nat
deriving DecidableEq, Repr

/-- Text chunk tags. -/
def isTextChunkType (t : EventType) : Bool :=
  t = EventType.chunkText || t = EventType.chunkSubAgentText

/-- Structured chunk tags. -/
def isStructuredChunkType (t : EventType) : Bool :=
  t = EventType.chunkTable || t = EventType.chunkCode || t = EventType.chunkChart

/-- Chunk tags that accumulate into messages. -/
def isChunkType (t : EventType) : Bool :=
  isTextChunkType t || isStructuredChunkType t

/-- Fresh message map entry created from the first chunk event carrying a
given `messageId` (the create branch of the scan). -/
def newMessage (msgId : String) (e : StreamEvent) (idx : Nat) : ConsolidatedMessage :=
  { messageId := msgId
    event := e
    thinking := jsGetD (e.payload.bind (·.thinking))
    textContent := if isTextChunkType e.type then jsGetD (e.payload.bind (·.content)) else ""
    finalAnswer := jsGetD (e.payload.bind (·.finalAnswer))
    structuredContent := if isStructuredChunkType e.type then e.payload.bind (·.content) else none
    suggestion := jsGetD (e.payload.bind (·.suggestion))
    orderIndex := idx }

/-- Truthy-overwrite update of an existing entry (the update branch): each
field is replaced only when the incoming event supplies a truthy value. -/
def updateMessage (item : ConsolidatedMessage) (e : StreamEvent) : ConsolidatedMessage :=
  let item :=
    match jsStr (e.payload.bind (·.thinking)) with
    | some s => { item with thinking := s }
    | none => item
  let item :=
    if isTextChunkType e.type then
      match jsStr (e.payload.bind (·.content)) with
      | some s => { item with textContent := s }
      | none => item
    else if isStructuredChunkType e.type then
      match jsStr (e.payload.bind (·.content)) with
      | some s => { item with structuredContent := some s }
      | none => item
    else item
  let item :=
    match jsStr (e.payload.bind (·.finalAnswer)) with
    | some s => { item with finalAnswer := s }
    | none => item
  match jsStr (e.payload.bind (·.suggestion)) with
  | some s => { item with suggestion := s }
  | none => item

/-- The two keyed accumulators of the consolidation scan. -/
structure ScanAcc where
  messageMap : List (String × ConsolidatedMessage)
  toolCallMap : List (String × Nat)
deriving DecidableEq, Repr

/-- Chunk handling of the scan step: a chunk event with a truthy
`messageId` creates or updates the message entry for that id. -/
def chunkStep (acc : ScanAcc) (idx : Nat) (e : StreamEvent) : ScanAcc :=
  if isChunkType e.type then
    match jsStr (e.payload.bind (·.messageId)) with
    | some msgId =>
        match alookup acc.messageMap msgId with
        | none =>
            { acc with messageMap := setAssoc acc.messageMap msgId (newMessage msgId e idx) }
        | some item =>
            { acc with messageMap := setAssoc acc.messageMap msgId (updateMessage item e) }
    | none => acc
  else acc

/-- Tool-call order tracking of the scan step: a `tool-call-start` with a
truthy `payload.toolCallId` records the current index (overwriting any
previously recorded index for that id). -/
def toolIdxStep (acc : ScanAcc) (idx : Nat) (e : StreamEvent) : ScanAcc :=
  if e.type = EventType.toolCallStart then
    match payloadToolCallId e with
    | some tcId => { acc with toolCallMap := setAssoc acc.toolCallMap tcId idx }
    | none => acc
  else acc

/-- One step of the consolidation scan at event index `idx`: the chunk
handling followed by the tool-call order tracking, as in the source's
`forEach` body. -/
def consolidateStep (acc : ScanAcc) (idx : Nat) (e : StreamEvent) : ScanAcc :=
  toolIdxStep (chunkStep acc idx e) idx e

/-- The indexed scan over a node's events (`forEach((e, idx) => ...)`). -/
def consolidateFold (idx : Nat) (acc : ScanAcc) : List StreamEvent → ScanAcc
  | [] => acc
  | e :: rest => consolidateFold (idx + 1) (consolidateStep acc idx e) rest

/-- One renderable item of the interleaved ordered list. -/
inductive OrderedItem where
  | message (messageId : String) (data : ConsolidatedMessage) (orderIndex : Nat)
  | toolCall (toolCallId : String) (orderIndex : Nat)
deriving DecidableEq, Repr

/-- The interleaving key of an item. -/
def OrderedItem.orderIndex : OrderedItem → Nat
  | .message _ _ i => i
  | .toolCall _ i => i

/-- The comparator `(a, b) => a.orderIndex - b.orderIndex`. -/
def itemLe (a b : OrderedItem) : Prop :=
  a.orderIndex ≤ b.orderIndex

instance : DecidableRel itemLe :=
  fun a b => Nat.decLe a.orderIndex b.orderIndex

instance : IsTotal OrderedItem itemLe :=
  ⟨fun a b => Nat.le_total a.orderIndex b.orderIndex⟩

instance : IsTrans OrderedItem itemLe :=
  ⟨fun _ _ _ h1 h2 => Nat.le_trans h1 h2⟩

/-- `processedData` for one node's event list: scan, merge both maps into
one tagged list, and sort ascending by `orderIndex` (`Array.prototype.sort`
is a stable sort, modelled by stable insertion sort). -/
def processedData (events : List StreamEvent) : List OrderedItem :=
  let acc := consolidateFold 0 ⟨[], []⟩ events
  let items :=
    acc.messageMap.map (fun p => OrderedItem.message p.1 p.2 p.2.orderIndex) ++
      acc.toolCallMap.map (fun p => OrderedItem.toolCall p.1 p.2)
  items.insertionSort itemLe

/-! ### Disclosure state and the auto-expand/collapse effect -/

/-- The per-node disclosure state: the `expandedItems` record together with
the `prevEventsRef` snapshot read by the effect. -/
structure DiscState where
  expandedItems : List (String × Bool)
  prevEvents : List StreamEvent
deriving DecidableEq, Repr

/-- `toggleItemExpand`: `[id]: !prev[id]` (an absent flag toggles to
`true`, since `!undefined` is `true`). -/
def toggleItemExpand (st : DiscState) (id : String) : DiscState :=
  { st with
    expandedItems :=
      setAssoc st.expandedItems id
        (match alookup st.expandedItems id with
         | some b => !b
         | none => true) }

/-- The `hasContent` test of the effect: `textContent || finalAnswer ||
structuredContent` is truthy. -/
def hasContentOf (d : ConsolidatedMessage) : Bool :=
  !(d.textContent = "") || !(d.finalAnswer = "") || (jsStr d.structuredContent).isSome

/-- One message item's pass of the effect body: auto-expand a brand new
thinking-only message with no recorded flag; auto-collapse a message whose
first previously-seen event had falsy `payload?.content` once the
consolidated item has content. -/
def autoAdjustItem (autoExpand autoCollapse : Bool) (prevEvents : List StreamEvent)
    (acc : List (String × Bool)) (item : OrderedItem) : List (String × Bool) :=
  match item with
  | .toolCall _ _ => acc
  | .message msgId data _ =>
      let prevItem := prevEvents.find? (fun e => payloadMessageId e = some msgId)
      let hasContent := hasContentOf data
      let acc :=
        if autoExpand && prevItem.isNone && !(data.thinking = "") && !hasContent &&
            (alookup acc msgId).isNone then
          setAssoc acc msgId true
        else acc
      if autoCollapse &&
          (match prevItem with
           | some p => !(jsStr (p.payload.bind (·.content))).isSome
           | none => false) &&
          hasContent then
        setAssoc acc msgId false
      else acc

/-- The auto-expand/collapse effect, run whenever `node.events` changes:
adjusts the disclosure record over the processed items and then records the
current events as the previous batch. -/
def autoEffect (autoExpand autoCollapse : Bool) (st : DiscState)
    (nodeEvents : List StreamEvent) : DiscState :=
  if !autoExpand && !autoCollapse then st
  else
    { expandedItems :=
        (processedData nodeEvents).foldl
          (autoAdjustItem autoExpand autoCollapse st.prevEvents) st.expandedItems
      prevEvents := nodeEvents }

/-! ### Projections used to state the claims -/

/-- The message-facing fields of an ordered item: identifier, thinking,
text content and interleave position. -/
def msgFields : OrderedItem → Option (String × String × String × Nat)
  | .message id d i => some (id, d.thinking, d.textContent, i)
  | .toolCall _ _ => none

/-- The index of the first `tool-call-start` event bearing a given truthy
`toolCallId`, as the claims describe it. -/
def firstToolStartIdx (t : String) (events : List StreamEvent) : Option Nat :=
  events.findIdx? (fun e => e.type = EventType.toolCallStart && payloadToolCallId e = some t)

/-- The index (counting from `idx`) of the last `tool-call-start` event
bearing a given truthy `toolCallId`. -/
def lastToolStartIdxFrom (idx : Nat) (t : String) : List StreamEvent → Option Nat
  | [] => none
  | e :: rest =>
      match lastToolStartIdxFrom (idx + 1) t rest with
      | some j => some j
      | none =>
          if e.type = EventType.toolCallStart && payloadToolCallId e = some t then some idx
          else none

/-- The index of the last `tool-call-start` event bearing `t`. -/
def lastToolStartIdx (t : String) (events : List StreamEvent) : Option Nat :=
  lastToolStartIdxFrom 0 t events

/-- The interleave position recorded for tool call `t` in an item list. -/
def toolCallOrderIndex (items : List OrderedItem) (t : String) : Option Nat :=
  items.findSome? (fun item =>
    match item with
    | .toolCall t' i => if t' = t then some i else none
    | .message _ _ _ => none)

/-! ### Concrete instances used by scenario theorems, counterexamples and
witnesses -/

/-- Scenario C7: `start(run=A)`. -/
def evC7startA : StreamEvent := { type := .start, runId := "A", timestamp := "t0" }

/-- Scenario C7: `tool-call-start(run=A, toolCallId=t1, toolName="search")`. -/
def evC7toolStart : StreamEvent :=
  { type := .toolCallStart, runId := "A", timestamp := "t1",
    payload := some { toolCallId := some "t1", toolName := some "search" } }

/-- Scenario C7: `start(run=B, parentId=A, toolCallId=t1)`. -/
def evC7startB : StreamEvent :=
  { type := .start, runId := "B", parentId := some "A", toolCallId := some "t1",
    timestamp := "t2" }

/-- Scenario C7: `text-chunk(run=B, messageId=m2, content="found it")`. -/
def evC7chunkB : StreamEvent :=
  { type := .chunkText, runId := "B", timestamp := "t3",
    payload := some { messageId := some "m2", content := some "found it" } }

/-- Scenario C7: `finish(run=B)`. -/
def evC7finishB : StreamEvent := { type := .finish, runId := "B", timestamp := "t4" }

/-- Scenario C7: `tool-result(run=A, toolCallId=t1)`. -/
def evC7toolResult : StreamEvent :=
  { type := .toolResult, runId := "A", timestamp := "t5",
    payload := some { toolCallId := some "t1", toolResult := some "res" } }

/-- Scenario C7: `finish(run=A)`. -/
def evC7finishA : StreamEvent := { type := .finish, runId := "A", timestamp := "t6" }

/-- The full C7 event sequence. -/
def scenarioC7 : List StreamEvent :=
  [evC7startA, evC7toolStart, evC7startB, evC7chunkB, evC7finishB, evC7toolResult,
    evC7finishA]

/-- A duplicated `tool-call-start` for tool call `t1` (first occurrence). -/
def evC2dup0 : StreamEvent :=
  { type := .toolCallStart, runId := "A", timestamp := "1",
    payload := some { toolCallId := some "t1" } }

/-- A text chunk between the two duplicated tool-call-starts. -/
def evC2chunk : StreamEvent :=
  { type := .chunkText, runId := "A", timestamp := "2",
    payload := some { messageId := some "m", content := some "x" } }

/-- A duplicated `tool-call-start` for tool call `t1` (second occurrence). -/
def evC2dup2 : StreamEvent :=
  { type := .toolCallStart, runId := "A", timestamp := "3",
    payload := some { toolCallId := some "t1" } }

/-- C2 counterexample node event list: `t1` starts at index 0 and again at
index 2, with a message chunk at index 1. -/
def cexC2 : List StreamEvent := [evC2dup0, evC2chunk, evC2dup2]

/-- C8 counterexample: a chunk with timestamp `"x"` before a `start` whose
timestamp is the empty string. -/
def cexC8 : List StreamEvent :=
  [{ type := .chunkText, runId := "A", timestamp := "x" },
   { type := .start, runId := "A", timestamp := "" }]

/-- C1 trace: thinking-only chunk creating message `m`. -/
def evC1thinking : StreamEvent :=
  { type := .chunkText, runId := "A", timestamp := "1",
    payload := some { messageId := some "m", thinking := some "th" } }

/-- C1 trace: first content arrival for message `m`. -/
def evC1content : StreamEvent :=
  { type := .chunkText, runId := "A", timestamp := "2",
    payload := some { messageId := some "m", content := some "c1" } }

/-- C1 trace: a later content event for message `m`. -/
def evC1more : StreamEvent :=
  { type := .chunkText, runId := "A", timestamp := "3",
    payload := some { messageId := some "m", content := some "c2" } }

/-- C1 trace: state after the first event arrives (auto-expands `m`). -/
def c1afterThinking : DiscState := autoEffect true true ⟨[], []⟩ [evC1thinking]

/-- C1 trace: state after the content event arrives (auto-collapses `m`). -/
def c1afterContent : DiscState :=
  autoEffect true true c1afterThinking [evC1thinking, evC1content]

/-- C1 trace: the user then manually toggles message `m` (to expanded). -/
def c1afterToggle : DiscState := toggleItemExpand c1afterContent "m"

/-- C1 trace: one more content-bearing event arrives after the toggle. -/
def c1afterMore : DiscState :=
  autoEffect true true c1afterToggle [evC1thinking, evC1content, evC1more]

/-- C5 counterexample: the parent run `P` whose own first event carries
`parentId=P` and `toolCallId=T`. -/
def evC5pStart : StreamEvent :=
  { type := .start, runId := "P", parentId := some "P", toolCallId := some "T",
    timestamp := "1" }

/-- C5 counterexample: the parent's `tool-call-start` for `T`. -/
def evC5pTool : StreamEvent :=
  { type := .toolCallStart, runId := "P", timestamp := "2",
    payload := some { toolCallId := some "T" } }

/-- C5 counterexample: the child run `B` with `parentId=P`, `toolCallId=T`. -/
def evC5child : StreamEvent :=
  { type := .start, runId := "B", parentId := some "P", toolCallId := some "T",
    timestamp := "3" }

/-- C5 witness: parent `start` event with no parent link of its own. -/
def evC5wStart : StreamEvent := { type := .start, runId := "P", timestamp := "1" }

/-- C5 witness: child events list. -/
def c5wChild : List StreamEvent := [evC5child]

/-- C5 witness: parent events list. -/
def c5wParent : List StreamEvent := [evC5wStart, evC5pTool]

/-- C4 witness: a `tool-call-start` for `t1`. -/
def evC4start : StreamEvent :=
  { type := .toolCallStart, runId := "A", timestamp := "1",
    payload := some { toolCallId := some "t1", toolName := some "search" } }

/-- C4 witness: the matching `tool-result` for `t1`. -/
def evC4result : StreamEvent :=
  { type := .toolResult, runId := "A", timestamp := "2",
    payload := some { toolCallId := some "t1", toolResult := some "r" } }

/-- C6 witness: chunk event carrying only `thinking="a"` for message `m1`. -/
def evC6thinking : StreamEvent :=
  { type := .chunkText, runId := "A", timestamp := "1",
    payload := some { messageId := some "m1", thinking := some "a" } }

/-- C6 witness: chunk event carrying only `content="b"` for message `m1`. -/
def evC6content : StreamEvent :=
  { type := .chunkText, runId := "B", timestamp := "2",
    payload := some { messageId := some "m1", content := some "b" } }

/-- C10 witness: a `tool-call-start` whose payload lacks a `toolCallId`. -/
def evC10noId : StreamEvent :=
  { type := .toolCallStart, runId := "A", timestamp := "1",
    payload := some { toolName := some "search" } }

/-- C9 witness: stored event. -/
def evC9stored : StreamEvent :=
  { type := .chunkText, runId := "A", timestamp := "1",
    payload := some { messageId := some "m", content := some "x", thinking := some "t" } }

/-- C9 witness: candidate with the same tuple but different `content`,
`thinking` and `toolResult` payload values. -/
def evC9cand : StreamEvent :=
  { type := .chunkText, runId := "A", timestamp := "1",
    payload := some { messageId := some "m", content := some "y", suggestion := some "s" } }

/-- The node a run key denotes after grouping: identifying fields from the
first event carrying that `runId`, bucket `evs` of all of them. -/
def bucketNode (e0 : StreamEvent) (evs : List StreamEvent) : ExecutionNode :=
  { runId := e0.runId
    parentId := jsStr e0.parentId
    toolCallId := jsStr e0.toolCallId
    agentId := jsStr e0.agentId
    events := evs
    toolCalls := []
    startTime := none
    endTime := none }

/-- Everything of a node except the `childAgent` references inside its tool
calls — the part of the tree the linking pass never modifies. -/
def nodeView (n : ExecutionNode) :
    String × Option String × Option String × Option String × List StreamEvent ×
      Option String × Option String :=
  (n.runId, n.parentId, n.toolCallId, n.agentId, n.events, n.startTime, n.endTime)

/-- Invariant of the tool-call scan, relative to the processed prefix
`done`: every entry of the accumulated map records a `tool-call-start`
occurring in `done`, and its result, when set, is a matching `tool-result`
occurring in `done` strictly after such a start. -/
def ToolCallsInv (done : List StreamEvent) (acc : List (String × ToolCallNode)) : Prop :=
  ∀ t tc, alookup acc t = some tc →
    (∃ l₁ l₂, done = l₁ ++ tc.startEvent :: l₂ ∧
       tc.startEvent.type = EventType.toolCallStart ∧
       payloadToolCallId tc.startEvent = some t) ∧
    (∀ r, tc.resultEvent = some r →
       r.type = EventType.toolResult ∧ payloadToolCallId r = some t ∧
       ∃ l₁ s l₂ l₃, done = l₁ ++ s :: l₂ ++ r :: l₃ ∧
         s.type = EventType.toolCallStart ∧ payloadToolCallId s = some t)

/-! ### Basic lemmas -/

theorem matchesDup_self (e : StreamEvent) : matchesDup e e = true := by
  simp [matchesDup]

/-- C3: appending the same candidate twice yields the same event list and
derived tree as appending it once, and the append is a no-op whenever an
event with the same `(runId, type, timestamp, payload.messageId)` tuple is
already stored. -/
theorem appendEvent_idempotent (l : List StreamEvent) (e : StreamEvent) :
    appendEvent (appendEvent l e) e = appendEvent l e ∧
    buildExecutionTree (appendEvent (appendEvent l e) e) =
      buildExecutionTree (appendEvent l e) ∧
    (l.any (matchesDup e) = true → appendEvent l e = l) := by
  have h1 : appendEvent (appendEvent l e) e = appendEvent l e := by
    by_cases h : l.any (matchesDup e) = true
    · simp [appendEvent, h]
    · simp [appendEvent, h, matchesDup_self]
  exact ⟨h1, by rw [h1], fun h => by simp [appendEvent, h]⟩

/-- Witness for C3 at a concrete duplicate-bearing list. -/
theorem appendEvent_idempotent_witness :
    appendEvent (appendEvent [evC9stored] evC9stored) evC9stored =
      appendEvent [evC9stored] evC9stored ∧
    appendEvent [evC9stored] evC9stored = [evC9stored] :=
  ⟨(appendEvent_idempotent [evC9stored] evC9stored).1,
   (appendEvent_idempotent [evC9stored] evC9stored).2.2 (by decide)⟩

/-- C9: a candidate agreeing with a stored event on `runId`, `type`,
`timestamp` and `payload.messageId` is discarded even when its other
payload fields differ, so those values never enter the event list or any
structure derived from it. -/
theorem duplicate_discards_payload (prev : List StreamEvent) (c : StreamEvent)
    (h : ∃ e ∈ prev, e.runId = c.runId ∧ e.type = c.type ∧ e.timestamp = c.timestamp ∧
      payloadMessageId e = payloadMessageId c) :
    appendEvent prev c = prev ∧
    buildExecutionTree (appendEvent prev c) = buildExecutionTree prev ∧
    processedData (appendEvent prev c) = processedData prev := by
  obtain ⟨e, he, h1, h2, h3, h4⟩ := h
  have hany : prev.any (matchesDup c) = true := by
    refine List.any_eq_true.mpr ⟨e, he, ?_⟩
    simp [matchesDup, h1, h2, h3, h4]
  have hp : appendEvent prev c = prev := by simp [appendEvent, hany]
  exact ⟨hp, by rw [hp], by rw [hp]⟩

/-- Witness for C9: the candidate differs from the stored event in
`content`, `thinking` and `suggestion`, and is still dropped. -/
theorem duplicate_discards_payload_witness :
    evC9stored.payload ≠ evC9cand.payload ∧
    appendEvent [evC9stored] evC9cand = [evC9stored] ∧
    buildExecutionTree (appendEvent [evC9stored] evC9cand) =
      buildExecutionTree [evC9stored] ∧
    processedData (appendEvent [evC9stored] evC9cand) = processedData [evC9stored] := by
  refine ⟨by decide, ?_⟩
  exact duplicate_discards_payload [evC9stored] evC9cand (by decide)

/-- C10: a `tool-call-start` whose payload lacks a truthy `toolCallId` is
ignored by the tool-call pass and by the consolidation scan, and
contributes nothing to the tool-call map of any event list containing it. -/
theorem toolCallStart_without_id_ignored (e : StreamEvent)
    (htype : e.type = EventType.toolCallStart) (hid : payloadToolCallId e = none) :
    (∀ tcs, toolCallStep tcs e = tcs) ∧
    (∀ acc idx, consolidateStep acc idx e = acc) ∧
    (∀ l₁ l₂, buildToolCalls (l₁ ++ e :: l₂) = buildToolCalls (l₁ ++ l₂)) := by
  have hstep : ∀ tcs, toolCallStep tcs e = tcs := by
    intro tcs
    simp [toolCallStep, htype, hid]
  have hcons : ∀ acc idx, consolidateStep acc idx e = acc := by
    intro acc idx
    simp [consolidateStep, chunkStep, toolIdxStep, htype, hid, isChunkType,
      isTextChunkType, isStructuredChunkType]
  refine ⟨hstep, hcons, fun l₁ l₂ => ?_⟩
  simp [buildToolCalls, List.foldl_append, hstep]

/-- Witness for C10 at a concrete id-less `tool-call-start`. -/
theorem toolCallStart_without_id_ignored_witness :
    toolCallStep [] evC10noId = [] ∧
    consolidateStep ⟨[], []⟩ 0 evC10noId = ⟨[], []⟩ ∧
    buildToolCalls [evC10noId] = buildToolCalls [] := by
  obtain ⟨h1, h2, h3⟩ := toolCallStart_without_id_ignored evC10noId (by decide) (by decide)
  exact ⟨h1 [], h2 ⟨[], []⟩ 0, by simpa using h3 [] []⟩

/-- C7: the tool-call-with-sub-agent scenario builds one root `A` whose only
item is tool call `t1`, `t1` links to node `B`, `B` consolidates exactly one
message `m2` with text content `"found it"`, and `t1` carries the
tool-result event. -/
theorem subagent_scenario :
    (rootNodes (buildExecutionTree scenarioC7)).map (·.runId) = ["A"] ∧
    (alookup (buildExecutionTree scenarioC7) "A").map (fun n => processedData n.events) =
      some [OrderedItem.toolCall "t1" 1] ∧
    childAgentAt (buildExecutionTree scenarioC7) "A" "t1" = some "B" ∧
    (alookup (buildExecutionTree scenarioC7) "B").map
        (fun n => (processedData n.events).map msgFields) =
      some [some ("m2", "", "found it", 1)] ∧
    resultEventAt (buildExecutionTree scenarioC7) "A" "t1" = some evC7toolResult := by
  decide

/-- C1: evaluating the disclosure state machine on the failing trace — after
message `m` was auto-collapsed and the user manually toggled it back to
expanded, the very next content-bearing event flips the flag to collapsed
again: the auto-collapse branch overrides the explicit user toggle, against
the documented policy. -/
theorem autoCollapse_overrides_manual_toggle :
    alookup c1afterToggle.expandedItems "m" = some true ∧
    alookup c1afterMore.expandedItems "m" = some false := by
  decide

/-- C2 counterexample: with two `tool-call-start` events for `t1` at indices
0 and 2 and a message chunk at index 1, the code records the last-seen index
2 for `t1`, not its first-seen index 0, so the tool-call item sorts after
the message. -/
theorem toolCall_orderIndex_not_first_seen :
    firstToolStartIdx "t1" cexC2 = some 0 ∧
    toolCallOrderIndex (processedData cexC2) "t1" = some 2 ∧
    toolCallOrderIndex (processedData cexC2) "t1" ≠ firstToolStartIdx "t1" cexC2 := by
  decide

/-- C5 counterexample: when the parent run's own first event carries
`parentId=P` and `toolCallId=T`, the parent links itself into slot `(P,T)`
and the final `childAgent` depends on which batch comes first, differing
between the two arrival orders. -/
theorem childAgent_link_order_dependent :
    childAgentAt (buildExecutionTree ([evC5child] ++ [evC5pStart, evC5pTool])) "P" "T" =
      some "P" ∧
    childAgentAt (buildExecutionTree ([evC5pStart, evC5pTool] ++ [evC5child])) "P" "T" =
      some "B" ∧
    childAgentAt (buildExecutionTree ([evC5child] ++ [evC5pStart, evC5pTool])) "P" "T" ≠
      childAgentAt (buildExecutionTree ([evC5pStart, evC5pTool] ++ [evC5child])) "P" "T" := by
  decide

/-- C8 counterexample: a `start` event whose timestamp is the empty string
is skipped by the `||` fallback chain, so `startTime` is the first event's
timestamp rather than the timestamp of the node's first `start` event. -/
theorem startTime_ignores_empty_start_timestamp :
    ((alookup (buildExecutionTree cexC8) "A").bind (·.startTime)) = some "x" ∧
    ((cexC8.find? (fun e => e.type = EventType.start)).map (·.timestamp)) = some "" ∧
    ((alookup (buildExecutionTree cexC8) "A").bind (·.startTime)) ≠
      ((cexC8.find? (fun e => e.type = EventType.start)).map (·.timestamp)) := by
  decide

/-- C6: for a message receiving one chunk carrying only `thinking="a"` and
one carrying only `textContent="b"`, the consolidated message ends with
`thinking="a"` and `textContent="b"` in both application orders, and its
interleave position is the first-seen index 0 in both. -/
theorem disjoint_field_merge_commutes (e₁ e₂ : StreamEvent) (p₁ p₂ : Payload) (m : String)
    (hm : m ≠ "")
    (ht₁ : e₁.type = EventType.chunkText) (hp₁ : e₁.payload = some p₁)
    (hm₁ : p₁.messageId = some m) (hth₁ : p₁.thinking = some "a")
    (hc₁ : jsStr p₁.content = none) (hf₁ : jsStr p₁.finalAnswer = none)
    (hs₁ : jsStr p₁.suggestion = none)
    (ht₂ : e₂.type = EventType.chunkText) (hp₂ : e₂.payload = some p₂)
    (hm₂ : p₂.messageId = some m) (hth₂ : jsStr p₂.thinking = none)
    (hc₂ : p₂.content = some "b")
    (hf₂ : jsStr p₂.finalAnswer = none) (hs₂ : jsStr p₂.suggestion = none) :
    (processedData [e₁, e₂]).map msgFields = [some (m, "a", "b", 0)] ∧
    (processedData [e₂, e₁]).map msgFields = [some (m, "a", "b", 0)] := by
  have hja : jsStr (some "a") = some "a" := by decide
  have hjb : jsStr (some "b") = some "b" := by decide
  have hjm : jsStr (some m) = some m := by simp [jsStr, hm]
  constructor <;>
  · simp [processedData, consolidateFold, consolidateStep, chunkStep, toolIdxStep,
      newMessage, updateMessage,
      alookup, setAssoc, isChunkType, isTextChunkType, isStructuredChunkType,
      payloadToolCallId, ht₁, ht₂, hp₁, hp₂, hm₁, hm₂, hth₁, hth₂, hc₁, hc₂, hf₁, hf₂,
      hs₁, hs₂, hja, hjb, hjm, jsGetD, msgFields, List.insertionSort, List.orderedInsert]

/-- Witness for C6 at concrete events for message `m1`. -/
theorem disjoint_field_merge_commutes_witness :
    (processedData [evC6thinking, evC6content]).map msgFields = [some ("m1", "a", "b", 0)] ∧
    (processedData [evC6content, evC6thinking]).map msgFields = [some ("m1", "a", "b", 0)] :=
  disjoint_field_merge_commutes evC6thinking evC6content
    { messageId := some "m1", thinking := some "a" }
    { messageId := some "m1", content := some "b" } "m1"
    (by decide) (by decide) rfl (by decide) (by decide) (by decide) (by decide) (by decide)
    (by decide) rfl (by decide) (by decide) (by decide) (by decide) (by decide)

theorem alookup_setAssoc_self {α : Type} (l : List (String × α)) (k : String) (v : α) :
    alookup (setAssoc l k v) k = some v := by
  induction l with
  | nil => simp [setAssoc, alookup]
  | cons p rest ih =>
      by_cases h : p.1 = k
      · simp [setAssoc, alookup, h]
      · simp [setAssoc, alookup, h, ih]

theorem alookup_setAssoc_ne {α : Type} (l : List (String × α)) (k k' : String) (v : α)
    (h : k' ≠ k) : alookup (setAssoc l k v) k' = alookup l k' := by
  induction l with
  | nil => simp [setAssoc, alookup, Ne.symm h]
  | cons p rest ih =>
      by_cases h1 : p.1 = k
      · subst h1
        simp [setAssoc, alookup, Ne.symm h, h]
      · by_cases h2 : p.1 = k'
        · simp [setAssoc, alookup, h1, h2, h]
        · simp [setAssoc, alookup, h1, h2, ih]

theorem alookup_updateAssoc {α : Type} (l : List (String × α)) (k : String) (f : α → α)
    (k' : String) :
    alookup (updateAssoc l k f) k' =
      if k' = k then (alookup l k).map f else alookup l k' := by
  induction l with
  | nil => simp [updateAssoc, alookup]
  | cons p rest ih =>
      by_cases h1 : p.1 = k
      · by_cases h2 : k' = k
        · subst h2
          simp [updateAssoc, alookup, h1]
        · have h3 : ¬k = k' := fun hh => h2 hh.symm
          simp [updateAssoc, alookup, h1, h2, h3]
      · by_cases h2 : k' = k
        · subst h2
          simp [updateAssoc, alookup, h1, ih]
        · simp [updateAssoc, alookup, h1, h2, ih]

theorem keys_updateAssoc {α : Type} (l : List (String × α)) (k : String) (f : α → α) :
    (updateAssoc l k f).map (·.1) = l.map (·.1) := by
  induction l with
  | nil => rfl
  | cons p rest ih =>
      by_cases h : p.1 = k <;> simp [updateAssoc, h, ih]

theorem alookup_eq_none_iff {α : Type} (l : List (String × α)) (k : String) :
    alookup l k = none ↔ k ∉ l.map (·.1) := by
  induction l with
  | nil => simp [alookup]
  | cons p rest ih =>
      by_cases h : p.1 = k
      · simp [alookup, h]
      · simp [alookup, h, ih]
        exact fun _ hh => h hh.symm

theorem alookup_mem {α : Type} {l : List (String × α)} {k : String} {v : α}
    (h : alookup l k = some v) : (k, v) ∈ l := by
  induction l with
  | nil => simp [alookup] at h
  | cons p rest ih =>
      obtain ⟨a, b⟩ := p
      by_cases h1 : a = k
      · subst h1
        simp [alookup] at h
        simp [h]
      · simp [alookup, h1] at h
        exact List.mem_cons_of_mem _ (ih h)

theorem mem_alookup {α : Type} {l : List (String × α)} {k : String} {v : α}
    (hn : (l.map (·.1)).Nodup) (h : (k, v) ∈ l) : alookup l k = some v := by
  induction l with
  | nil => simp at h
  | cons p rest ih =>
      obtain ⟨a, b⟩ := p
      simp at hn
      rcases List.mem_cons.mp h with h | h
      · cases h
        simp [alookup]
      · have hk : a ≠ k := by
          intro hh
          subst hh
          exact hn.1 v h
        simp [alookup, hk, ih hn.2 h]

theorem keys_setAssoc {α : Type} (l : List (String × α)) (k : String) (v : α) :
    (setAssoc l k v).map (·.1) =
      if k ∈ l.map (·.1) then l.map (·.1) else l.map (·.1) ++ [k] := by
  induction l with
  | nil => simp [setAssoc]
  | cons p rest ih =>
      by_cases h : p.1 = k
      · simp [setAssoc, h]
      · have h3 : ¬k = p.1 := fun hh => h hh.symm
        simp [setAssoc, h, ih, h3]
        by_cases h2 : k ∈ rest.map (·.1) <;> simp [h2, h3]

theorem nodupKeys_setAssoc {α : Type} (l : List (String × α)) (k : String) (v : α)
    (hn : (l.map (·.1)).Nodup) : ((setAssoc l k v).map (·.1)).Nodup := by
  rw [keys_setAssoc]
  by_cases h : k ∈ l.map (·.1)
  · simpa [h]
  · simp [h, List.nodup_append, hn]

theorem alookup_map_value {α β : Type} (l : List (String × α)) (f : α → β) (k : String) :
    alookup (l.map (fun p => (p.1, f p.2))) k = (alookup l k).map f := by
  induction l with
  | nil => simp [alookup]
  | cons p rest ih =>
      by_cases h : p.1 = k <;> simp [alookup, h, ih]

theorem toolCallsInv_weaken (done : List StreamEvent) (acc : List (String × ToolCallNode))
    (e : StreamEvent) (hinv : ToolCallsInv done acc) : ToolCallsInv (done ++ [e]) acc := by
  intro t tc h
  obtain ⟨⟨l₁, l₂, hd, hty, hid⟩, hres⟩ := hinv t tc h
  refine ⟨⟨l₁, l₂ ++ [e], by simp [hd], hty, hid⟩, ?_⟩
  intro r hr
  obtain ⟨hty2, hid2, m₁, s, m₂, m₃, hd2, htys, hids⟩ := hres r hr
  exact ⟨hty2, hid2, m₁, s, m₂, m₃ ++ [e], by simp [hd2], htys, hids⟩

theorem toolCallStep_inv (done : List StreamEvent) (acc : List (String × ToolCallNode))
    (e : StreamEvent) (hinv : ToolCallsInv done acc) :
    ToolCallsInv (done ++ [e]) (toolCallStep acc e) := by
  have hweak := toolCallsInv_weaken done acc e hinv
  by_cases h1 : e.type = EventType.toolCallStart
  · cases hid : payloadToolCallId e with
    | none => simpa only [toolCallStep, if_pos h1, hid] using hweak
    | some t0 =>
        simp only [toolCallStep, if_pos h1, hid]
        intro t tc h
        by_cases ht : t = t0
        · subst ht
          rw [alookup_setAssoc_self] at h
          injection h with h
          subst h
          refine ⟨⟨done, [], by simp, h1, hid⟩, ?_⟩
          intro r hr
          simp at hr
        · rw [alookup_setAssoc_ne _ _ _ _ ht] at h
          exact hweak t tc h
  · by_cases h2 : e.type = EventType.toolResult
    · cases hid : payloadToolCallId e with
      | none => simpa only [toolCallStep, if_neg h1, if_pos h2, hid] using hweak
      | some t0 =>
          cases hacc : alookup acc t0 with
          | none => simpa only [toolCallStep, if_neg h1, if_pos h2, hid, hacc] using hweak
          | some old =>
              simp only [toolCallStep, if_neg h1, if_pos h2, hid, hacc]
              intro t tc h
              rw [alookup_updateAssoc] at h
              by_cases ht : t = t0
              · subst ht
                rw [if_pos rfl, hacc] at h
                simp at h
                obtain ⟨⟨l₁, l₂, hd, hty, hidS⟩, hres⟩ := hinv t old hacc
                subst h
                refine ⟨⟨l₁, l₂ ++ [e], by simp [hd], hty, hidS⟩, ?_⟩
                intro r hr
                simp at hr
                subst hr
                exact ⟨h2, hid, l₁, old.startEvent, l₂, [], by simp [hd], hty, hidS⟩
              · rw [if_neg ht] at h
                exact hweak t tc h
    · simpa only [toolCallStep, if_neg h1, if_neg h2] using hweak

theorem buildToolCalls_fold_inv (rest : List StreamEvent) :
    ∀ done acc, ToolCallsInv done acc →
      ToolCallsInv (done ++ rest) (rest.foldl toolCallStep acc) := by
  induction rest with
  | nil =>
      intro done acc h
      simpa using h
  | cons e rest ih =>
      intro done acc h
      have h3 := ih (done ++ [e]) (toolCallStep acc e) (toolCallStep_inv done acc e h)
      simpa [List.append_assoc] using h3

/-- C4: a tool-call map entry exists only for a `tool-call-start` present in
the node's event list, and its `resultEvent`, when set, is a matching
`tool-result` occurring strictly after such a start in the same list; hence
a `tool-result` with no earlier matching start never creates an entry. -/
theorem toolResult_attaches_only_after_start (events : List StreamEvent) (t : String)
    (tc : ToolCallNode) (h : alookup (buildToolCalls events) t = some tc) :
    (∃ l₁ l₂, events = l₁ ++ tc.startEvent :: l₂ ∧
       tc.startEvent.type = EventType.toolCallStart ∧
       payloadToolCallId tc.startEvent = some t) ∧
    (∀ r, tc.resultEvent = some r →
       r.type = EventType.toolResult ∧ payloadToolCallId r = some t ∧
       ∃ l₁ s l₂ l₃, events = l₁ ++ s :: l₂ ++ r :: l₃ ∧
         s.type = EventType.toolCallStart ∧ payloadToolCallId s = some t) := by
  have h0 : ToolCallsInv [] [] := by
    intro t tc h
    simp [alookup] at h
  have h1 := buildToolCalls_fold_inv events [] [] h0
  simp only [List.nil_append] at h1
  unfold buildToolCalls at h
  exact h1 t tc h

/-- Witness for C4 at a concrete start/result pair for `t1`. -/
theorem toolResult_attaches_only_after_start_witness :
    ∃ tc, alookup (buildToolCalls [evC4start, evC4result]) "t1" = some tc ∧
      tc.resultEvent = some evC4result ∧
      (∃ l₁ s l₂ l₃, [evC4start, evC4result] = l₁ ++ s :: l₂ ++ evC4result :: l₃ ∧
        s.type = EventType.toolCallStart ∧ payloadToolCallId s = some "t1") := by
  refine ⟨{ toolCallId := "t1", toolName := "search", startEvent := evC4start,
            resultEvent := some evC4result, childAgent := none }, by decide, by decide, ?_⟩
  exact ((toolResult_attaches_only_after_start [evC4start, evC4result] "t1"
    { toolCallId := "t1", toolName := "search", startEvent := evC4start,
      resultEvent := some evC4result, childAgent := none }
    (by decide)).2 evC4result (by decide)).2.2

theorem chunkStep_toolCallMap (acc : ScanAcc) (idx : Nat) (e : StreamEvent) :
    (chunkStep acc idx e).toolCallMap = acc.toolCallMap := by
  unfold chunkStep
  split
  · split
    · split <;> rfl
    · rfl
  · rfl

theorem toolIdxStep_toolCallMap_lookup (acc : ScanAcc) (idx : Nat) (e : StreamEvent)
    (t : String) :
    alookup (toolIdxStep acc idx e).toolCallMap t =
      if e.type = EventType.toolCallStart ∧ payloadToolCallId e = some t then some idx
      else alookup acc.toolCallMap t := by
  unfold toolIdxStep
  by_cases h1 : e.type = EventType.toolCallStart
  · rw [if_pos h1]
    cases hid : payloadToolCallId e with
    | none => simp [h1, hid]
    | some t0 =>
        by_cases ht : t0 = t
        · subst ht
          simp [h1, hid, alookup_setAssoc_self]
        · have ht2 : t ≠ t0 := fun hh => ht hh.symm
          simp [h1, hid, alookup_setAssoc_ne _ _ _ _ ht2, ht]
  · rw [if_neg h1]
    simp [h1]

theorem consolidateStep_toolCallMap_lookup (acc : ScanAcc) (idx : Nat) (e : StreamEvent)
    (t : String) :
    alookup (consolidateStep acc idx e).toolCallMap t =
      if e.type = EventType.toolCallStart ∧ payloadToolCallId e = some t then some idx
      else alookup acc.toolCallMap t := by
  unfold consolidateStep
  rw [toolIdxStep_toolCallMap_lookup, chunkStep_toolCallMap]

theorem consolidateFold_toolCallMap_lookup (events : List StreamEvent) :
    ∀ idx acc t,
      alookup (consolidateFold idx acc events).toolCallMap t =
        match lastToolStartIdxFrom idx t events with
        | some j => some j
        | none => alookup acc.toolCallMap t := by
  induction events with
  | nil =>
      intro idx acc t
      simp [consolidateFold, lastToolStartIdxFrom]
  | cons e rest ih =>
      intro idx acc t
      rw [consolidateFold, ih]
      cases hrest : lastToolStartIdxFrom (idx + 1) t rest with
      | some j => simp [lastToolStartIdxFrom, hrest]
      | none =>
          simp only [lastToolStartIdxFrom, hrest]
          rw [consolidateStep_toolCallMap_lookup]
          by_cases h1 : e.type = EventType.toolCallStart <;>
            by_cases h2 : payloadToolCallId e = some t <;>
            simp [h1, h2]

theorem processed_toolCallMap_lookup (events : List StreamEvent) (t : String) :
    alookup (consolidateFold 0 ⟨[], []⟩ events).toolCallMap t = lastToolStartIdx t events := by
  rw [consolidateFold_toolCallMap_lookup]
  unfold lastToolStartIdx
  cases lastToolStartIdxFrom 0 t events <;> simp [alookup]

theorem toolIdxStep_toolCallMap_nodup (acc : ScanAcc) (idx : Nat) (e : StreamEvent)
    (h : ((acc.toolCallMap).map (·.1)).Nodup) :
    (((toolIdxStep acc idx e).toolCallMap).map (·.1)).Nodup := by
  unfold toolIdxStep
  split
  · split
    · exact nodupKeys_setAssoc _ _ _ h
    · exact h
  · exact h

theorem consolidateStep_toolCallMap_nodup (acc : ScanAcc) (idx : Nat) (e : StreamEvent)
    (h : ((acc.toolCallMap).map (·.1)).Nodup) :
    (((consolidateStep acc idx e).toolCallMap).map (·.1)).Nodup := by
  unfold consolidateStep
  apply toolIdxStep_toolCallMap_nodup
  rw [chunkStep_toolCallMap]
  exact h

theorem consolidateFold_toolCallMap_nodup (events : List StreamEvent) :
    ∀ idx acc, ((acc.toolCallMap).map (·.1)).Nodup →
      (((consolidateFold idx acc events).toolCallMap).map (·.1)).Nodup := by
  induction events with
  | nil =>
      intro idx acc h
      simpa [consolidateFold] using h
  | cons e rest ih =>
      intro idx acc h
      exact ih _ _ (consolidateStep_toolCallMap_nodup acc idx e h)

theorem processedData_toolCall_lookup (events : List StreamEvent) (t : String) (i : Nat)
    (h : OrderedItem.toolCall t i ∈ processedData events) :
    lastToolStartIdx t events = some i := by
  rw [← processed_toolCallMap_lookup]
  simp only [processedData, List.mem_insertionSort, List.mem_append, List.mem_map] at h
  rcases h with h | h
  · obtain ⟨p, hp, heq⟩ := h
    simp at heq
  · obtain ⟨p, hp, heq⟩ := h
    have h1 : p.1 = t ∧ p.2 = i := by
      simpa [OrderedItem.toolCall.injEq] using heq
    obtain ⟨rfl, rfl⟩ : (t, i) = p := by
      obtain ⟨a, b⟩ := p
      simp at h1
      simp [h1]
    exact mem_alookup (consolidateFold_toolCallMap_nodup events 0 ⟨[], []⟩ (by simp)) hp

/-- C2 (amended): the merged item list is sorted ascending by each item's
recorded `orderIndex`, and a tool-call item's `orderIndex` is the index of
the last `tool-call-start` event bearing its `toolCallId` in the node's
event list (which is the first-seen index whenever that id is not
repeated). -/
theorem processedData_sorted_and_last_index (events : List StreamEvent) :
    List.Sorted itemLe (processedData events) ∧
    ∀ t i, OrderedItem.toolCall t i ∈ processedData events →
      lastToolStartIdx t events = some i := by
  constructor
  · unfold processedData
    exact List.sorted_insertionSort itemLe _
  · intro t i h
    exact processedData_toolCall_lookup events t i h

/-- Witness for C2's amended claim at the counterexample list: the item list
is sorted and tool call `t1` carries the last start index 2. -/
theorem processedData_sorted_and_last_index_witness :
    List.Sorted itemLe (processedData cexC2) ∧ lastToolStartIdx "t1" cexC2 = some 2 :=
  ⟨(processedData_sorted_and_last_index cexC2).1,
   (processedData_sorted_and_last_index cexC2).2 "t1" 2 (by decide)⟩

theorem alookup_append {α : Type} (l1 l2 : List (String × α)) (k : String) :
    alookup (l1 ++ l2) k =
      match alookup l1 k with
      | some v => some v
      | none => alookup l2 k := by
  induction l1 with
  | nil => simp [alookup]
  | cons p rest ih =>
      by_cases h : p.1 = k <;> simp [alookup, h, ih]

theorem groupFold_lookup (L : List StreamEvent) :
    ∀ acc r, r ≠ "" →
      alookup (L.foldl groupStep acc) r =
        match alookup acc r with
        | some node =>
            some { node with events := node.events ++ L.filter (fun e => e.runId = r) }
        | none =>
            (L.find? (fun e => e.runId = r)).map
              (fun e0 => bucketNode e0 (L.filter (fun e => e.runId = r))) := by
  induction L with
  | nil =>
      intro acc r hr
      cases halookup : alookup acc r <;> simp [halookup]
  | cons e L ih =>
      intro acc r hr
      rw [List.foldl_cons, ih _ r hr]
      by_cases he : e.runId = ""
      · have hne : ¬e.runId = r := fun hh => hr (hh ▸ he)
        simp only [groupStep, if_pos he]
        simp [List.find?_cons, List.filter_cons, hne]
      · by_cases her : e.runId = r
        · subst her
          simp only [groupStep, if_neg he]
          cases hacc : alookup acc e.runId with
          | some node =>
              have h1 : (alookup acc e.runId).isSome = true := by simp [hacc]
              simp only [h1, if_true]
              rw [alookup_updateAssoc]
              simp [hacc, List.filter_cons]
          | none =>
              simp only [hacc, Option.isSome_none, Bool.false_eq_true, if_false]
              rw [alookup_updateAssoc, if_pos rfl, alookup_append, hacc]
              simp [alookup, List.filter_cons, List.find?_cons, bucketNode, initNode]
        · have hne : ¬e.runId = r := her
          simp only [groupStep]
          rw [if_neg he]
          have hkey : alookup (if (alookup acc e.runId).isSome = true then acc
              else acc ++ [(e.runId, initNode e)]) r = alookup acc r := by
            split
            · rfl
            · rw [alookup_append]
              cases h2 : alookup acc r <;> simp [alookup, hne]
          rw [alookup_updateAssoc]
          have hrne : ¬r = e.runId := fun hh => hne hh.symm
          rw [if_neg hrne, hkey]
          simp [List.filter_cons, List.find?_cons, hne]

theorem groupEvents_lookup (L : List StreamEvent) (r : String) (hr : r ≠ "") :
    alookup (groupEvents L) r =
      (L.find? (fun e => e.runId = r)).map
        (fun e0 => bucketNode e0 (L.filter (fun e => e.runId = r))) := by
  have h := groupFold_lookup L [] r hr
  simpa [groupEvents, alookup] using h

theorem groupFold_lookup_empty (L : List StreamEvent) :
    ∀ acc, alookup acc "" = none → alookup (L.foldl groupStep acc) "" = none := by
  induction L with
  | nil =>
      intro acc h
      simpa using h
  | cons e L ih =>
      intro acc h
      rw [List.foldl_cons]
      apply ih
      unfold groupStep
      by_cases he : e.runId = ""
      · simpa [he] using h
      · rw [if_neg he, alookup_updateAssoc]
        have hne : ¬("" : String) = e.runId := fun hh => he hh.symm
        rw [if_neg hne]
        split
        · exact h
        · rw [alookup_append, h]
          simp [alookup, hne, he]

theorem groupEvents_lookup_empty (L : List StreamEvent) :
    alookup (groupEvents L) "" = none :=
  groupFold_lookup_empty L [] (by simp [alookup])

theorem map_view_setChild (o : Option ExecutionNode) (tcid rid : String) :
    (o.map (fun p => { p with toolCalls := setChildAgent p.toolCalls tcid rid })).map nodeView =
      o.map nodeView := by
  cases o <;> simp [nodeView]

theorem linkStep_lookup_view (acc : ExecutionTree) (node : ExecutionNode) (r : String) :
    (alookup (linkStep acc node) r).map nodeView = (alookup acc r).map nodeView := by
  unfold linkStep
  split
  · split
    · split
      · rw [alookup_updateAssoc]
        split
        · rename_i hrp
          subst hrp
          exact map_view_setChild _ _ _
        · rfl
      · rfl
    · rfl
  · rfl

theorem linkFold_lookup_view (values : List ExecutionNode) :
    ∀ acc r, (alookup (values.foldl linkStep acc) r).map nodeView =
      (alookup acc r).map nodeView := by
  induction values with
  | nil =>
      intro acc r
      rfl
  | cons n values ih =>
      intro acc r
      rw [List.foldl_cons, ih, linkStep_lookup_view]

theorem linkChildren_lookup_view (ns : ExecutionTree) (r : String) :
    (alookup (linkChildren ns) r).map nodeView = (alookup ns r).map nodeView := by
  unfold linkChildren
  rw [linkFold_lookup_view]

theorem jsOr_some_of_ne {s : String} (h : s ≠ "") (b : Option String) :
    jsOr (some s) b = some s := by
  simp [jsOr, jsStr, h]

theorem jsOr_none (b : Option String) : jsOr none b = jsStr b := rfl

theorem buildTree_lookup_view (L : List StreamEvent) (r : String) :
    (alookup (buildExecutionTree L) r).map nodeView =
      (alookup (groupEvents L) r).map
        (fun n => nodeView (processToolEvents (setTimes n))) := by
  unfold buildExecutionTree
  rw [linkChildren_lookup_view, alookup_map_value, alookup_map_value]
  rw [Option.map_map, Option.map_map]
  rfl

/-- C8 (amended): for every node of the built tree whose events all carry
nonempty timestamps, `startTime` is the timestamp of the node's first
`start` event when one exists and otherwise the first event's timestamp,
and `endTime` is the timestamp of the first `finish` event when one exists
and otherwise the last event's timestamp; the node's bucket is nonempty. -/
theorem node_times_from_events (L : List StreamEvent) (r : String) (node : ExecutionNode)
    (h : alookup (buildExecutionTree L) r = some node)
    (hts : ∀ e ∈ node.events, e.timestamp ≠ "") :
    node.events ≠ [] ∧
    node.startTime = (match node.events.find? (fun e => e.type = EventType.start) with
      | some s => some s.timestamp
      | none => node.events.head?.map (·.timestamp)) ∧
    node.endTime = (match node.events.find? (fun e => e.type = EventType.finish) with
      | some f => some f.timestamp
      | none => node.events.getLast?.map (·.timestamp)) := by
  have hview := buildTree_lookup_view L r
  rw [h] at hview
  have hr : r ≠ "" := by
    intro hre
    subst hre
    rw [groupEvents_lookup_empty] at hview
    simp at hview
  rw [groupEvents_lookup L r hr] at hview
  cases hfind : L.find? (fun e => e.runId = r) with
  | none =>
      rw [hfind] at hview
      simp at hview
  | some e0 =>
      rw [hfind] at hview
      simp only [Option.map_some', Option.some.injEq] at hview
      have hevents : node.events = L.filter (fun e => e.runId = r) := by
        have hc := congrArg (fun v => v.2.2.2.2.1) hview
        simpa [nodeView, processToolEvents, setTimes, bucketNode] using hc
      have hst : node.startTime =
          jsOr (((L.filter (fun e => e.runId = r)).find?
              (fun e => e.type = EventType.start)).map (·.timestamp))
            ((L.filter (fun e => e.runId = r)).head?.map (·.timestamp)) := by
        have hc := congrArg (fun v => v.2.2.2.2.2.1) hview
        simpa [nodeView, processToolEvents, setTimes, bucketNode] using hc
      have het : node.endTime =
          jsOr (((L.filter (fun e => e.runId = r)).find?
              (fun e => e.type = EventType.finish)).map (·.timestamp))
            ((L.filter (fun e => e.runId = r)).getLast?.map (·.timestamp)) := by
        have hc := congrArg (fun v => v.2.2.2.2.2.2) hview
        simpa [nodeView, processToolEvents, setTimes, bucketNode] using hc
      have he0L : e0 ∈ L := List.mem_of_find?_eq_some hfind
      have he0r : e0.runId = r := by simpa using List.find?_some hfind
      have he0f : e0 ∈ L.filter (fun e => e.runId = r) := by
        simp [List.mem_filter, he0L, he0r]
      have hne : L.filter (fun e => e.runId = r) ≠ [] := List.ne_nil_of_mem he0f
      refine ⟨by rw [hevents]; exact hne, ?_, ?_⟩
      · rw [hst, hevents]
        cases hfs : (L.filter (fun e => e.runId = r)).find?
            (fun e => e.type = EventType.start) with
        | some s =>
            have hsm : s ∈ L.filter (fun e => e.runId = r) :=
              List.mem_of_find?_eq_some hfs
            have hsts : s.timestamp ≠ "" := hts s (hevents ▸ hsm)
            simp [jsOr_some_of_ne hsts]
        | none =>
            cases hfl : L.filter (fun e => e.runId = r) with
            | nil => exact absurd hfl hne
            | cons f rest =>
                have hftm : f ∈ L.filter (fun e => e.runId = r) := by
                  rw [hfl]
                  exact List.mem_cons_self f rest
                have hfts : f.timestamp ≠ "" := hts f (hevents ▸ hftm)
                simp [jsOr_none, jsStr, hfts]
      · rw [het, hevents]
        cases hfs : (L.filter (fun e => e.runId = r)).find?
            (fun e => e.type = EventType.finish) with
        | some f =>
            have hsm : f ∈ L.filter (fun e => e.runId = r) :=
              List.mem_of_find?_eq_some hfs
            have hsts : f.timestamp ≠ "" := hts f (hevents ▸ hsm)
            simp [jsOr_some_of_ne hsts]
        | none =>
            have hgl := List.getLast?_eq_getLast_of_ne_nil hne
            have hglm : (L.filter (fun e => e.runId = r)).getLast hne ∈
                L.filter (fun e => e.runId = r) := List.getLast_mem hne
            have hglts : ((L.filter (fun e => e.runId = r)).getLast hne).timestamp ≠ "" := by
              refine hts _ ?_
              rw [hevents]
              exact hglm
            rw [hgl]
            simp only [Option.map_none', Option.map_some', jsOr_none, jsStr]
            rw [if_neg hglts]

/-- Witness for C8's amended claim at a concrete two-event run. -/
theorem node_times_from_events_witness :
    ∃ node, alookup (buildExecutionTree [evC7startA, evC7finishA]) "A" = some node ∧
      node.events ≠ [] ∧
      node.startTime = (match node.events.find? (fun e => e.type = EventType.start) with
        | some s => some s.timestamp
        | none => node.events.head?.map (·.timestamp)) ∧
      node.endTime = (match node.events.find? (fun e => e.type = EventType.finish) with
        | some f => some f.timestamp
        | none => node.events.getLast?.map (·.timestamp)) := by
  refine ⟨{ runId := "A", parentId := none, toolCallId := none, agentId := none,
            events := [evC7startA, evC7finishA], toolCalls := [],
            startTime := some "t0", endTime := some "t6" }, by decide, ?_⟩
  exact node_times_from_events [evC7startA, evC7finishA] "A" _ (by decide) (by decide)

theorem toolCallStep_key_isSome (acc : List (String × ToolCallNode)) (e : StreamEvent)
    (t : String) :
    (alookup (toolCallStep acc e) t).isSome =
      ((e.type = EventType.toolCallStart && payloadToolCallId e = some t) ||
        (alookup acc t).isSome) := by
  by_cases h1 : e.type = EventType.toolCallStart
  · cases hid : payloadToolCallId e with
    | none => simp [toolCallStep, h1, hid]
    | some t0 =>
        by_cases ht : t0 = t
        · subst ht
          simp [toolCallStep, h1, hid, alookup_setAssoc_self]
        · have ht2 : t ≠ t0 := fun hh => ht hh.symm
          simp [toolCallStep, h1, hid, alookup_setAssoc_ne _ _ _ _ ht2, ht]
  · by_cases h2 : e.type = EventType.toolResult
    · cases hid : payloadToolCallId e with
      | none => simp [toolCallStep, h1, h2, hid]
      | some t0 =>
          cases hacc : alookup acc t0 with
          | none => simp [toolCallStep, h1, h2, hid, hacc]
          | some old =>
              simp only [toolCallStep, if_neg h1, if_pos h2, hid, hacc]
              rw [alookup_updateAssoc]
              by_cases ht : t = t0
              · subst ht
                simp [hacc, h1]
              · simp [ht, h1]
    · simp [toolCallStep, h1, h2]

theorem buildToolCalls_fold_key_isSome (events : List StreamEvent) :
    ∀ acc t, (alookup (events.foldl toolCallStep acc) t).isSome =
      (events.any (fun e => e.type = EventType.toolCallStart &&
          payloadToolCallId e = some t) || (alookup acc t).isSome) := by
  induction events with
  | nil =>
      intro acc t
      simp
  | cons e rest ih =>
      intro acc t
      rw [List.foldl_cons, ih, toolCallStep_key_isSome]
      simp [List.any_cons, Bool.or_assoc, Bool.or_comm, Bool.or_left_comm]

theorem buildToolCalls_key_isSome (events : List StreamEvent) (t : String) :
    (alookup (buildToolCalls events) t).isSome =
      events.any (fun e => e.type = EventType.toolCallStart &&
        payloadToolCallId e = some t) := by
  have h := buildToolCalls_fold_key_isSome events [] t
  simpa [buildToolCalls, alookup] using h

theorem groupFold_keys_nodup (L : List StreamEvent) :
    ∀ acc : ExecutionTree, ((acc.map (·.1)).Nodup) →
      (((L.foldl groupStep acc).map (·.1)).Nodup) := by
  induction L with
  | nil =>
      intro acc h
      simpa using h
  | cons e L ih =>
      intro acc h
      rw [List.foldl_cons]
      apply ih
      unfold groupStep
      by_cases he : e.runId = ""
      · simpa [he] using h
      · rw [if_neg he, keys_updateAssoc]
        split
        · exact h
        · rename_i hns
          have hnone : alookup acc e.runId = none :=
            Option.not_isSome_iff_eq_none.mp hns
          have hnm : e.runId ∉ acc.map (·.1) := (alookup_eq_none_iff acc e.runId).mp hnone
          simp [List.nodup_append, h, hnm]

theorem groupEvents_keys_nodup (L : List StreamEvent) :
    (((groupEvents L).map (·.1)).Nodup) :=
  groupFold_keys_nodup L [] (by simp)

theorem groupEvents_mem_char (L : List StreamEvent) (k : String) (n : ExecutionNode)
    (hmem : (k, n) ∈ groupEvents L) :
    k ≠ "" ∧ ∃ e0, L.find? (fun e => e.runId = k) = some e0 ∧
      n = bucketNode e0 (L.filter (fun e => e.runId = k)) := by
  have halk : alookup (groupEvents L) k = some n :=
    mem_alookup (groupEvents_keys_nodup L) hmem
  have hk : k ≠ "" := by
    intro hke
    subst hke
    rw [groupEvents_lookup_empty] at halk
    cases halk
  rw [groupEvents_lookup L k hk] at halk
  cases hf : L.find? (fun e => e.runId = k) with
  | none =>
      rw [hf] at halk
      cases halk
  | some e0 =>
      rw [hf] at halk
      simp only [Option.map_some', Option.some.injEq] at halk
      exact ⟨hk, e0, rfl, halk.symm⟩

theorem procNode_parentId (n : ExecutionNode) :
    (processToolEvents (setTimes n)).parentId = n.parentId := rfl

theorem procNode_toolCallId (n : ExecutionNode) :
    (processToolEvents (setTimes n)).toolCallId = n.toolCallId := rfl

theorem procNode_runId (n : ExecutionNode) :
    (processToolEvents (setTimes n)).runId = n.runId := rfl

theorem procNode_toolCalls (n : ExecutionNode) :
    (processToolEvents (setTimes n)).toolCalls = buildToolCalls n.events := rfl

theorem linkStep_writer (acc : ExecutionTree) (n : ExecutionNode) (P T : String)
    (hkey : ((alookup acc P).bind (fun p => alookup p.toolCalls T)).isSome = true)
    (hp : n.parentId = some P) (ht : n.toolCallId = some T) :
    childAgentAt (linkStep acc n) P T = some n.runId := by
  obtain ⟨parent, hP⟩ : ∃ parent, alookup acc P = some parent := by
    cases hP : alookup acc P with
    | none => rw [hP] at hkey; simp at hkey
    | some parent => exact ⟨parent, rfl⟩
  obtain ⟨tc, hT⟩ : ∃ tc, alookup parent.toolCalls T = some tc := by
    cases hT : alookup parent.toolCalls T with
    | none => simp [hP, hT] at hkey
    | some tc => exact ⟨tc, rfl⟩
  unfold linkStep
  rw [hp, ht]
  simp only [hP, hT]
  unfold childAgentAt
  rw [alookup_updateAssoc, if_pos rfl, hP]
  simp only [Option.map_some', Option.some_bind]
  unfold setChildAgent
  rw [alookup_updateAssoc, if_pos rfl, hT]
  simp

theorem linkStep_childAgentAt_other (acc : ExecutionTree) (n : ExecutionNode) (P T : String)
    (h : ¬(n.parentId = some P ∧ n.toolCallId = some T)) :
    childAgentAt (linkStep acc n) P T = childAgentAt acc P T := by
  unfold linkStep
  cases hpid : n.parentId with
  | none => rfl
  | some pid =>
      cases htc : n.toolCallId with
      | none => rfl
      | some tcid =>
          cases hpar : alookup acc pid with
          | none => simp [hpar]
          | some parent =>
              cases htcc : alookup parent.toolCalls tcid with
              | none => simp [hpar, htcc]
              | some tc =>
                  simp only [hpar, htcc]
                  unfold childAgentAt
                  rw [alookup_updateAssoc]
                  by_cases hpp : P = pid
                  · subst hpp
                    have htT : tcid ≠ T := by
                      intro hh
                      subst hh
                      exact h ⟨hpid, htc⟩
                    rw [if_pos rfl, hpar]
                    simp only [Option.map_some', Option.some_bind]
                    unfold setChildAgent
                    rw [alookup_updateAssoc, if_neg (fun hh => htT hh.symm)]
                  · rw [if_neg hpp]

theorem linkStep_key_isSome (acc : ExecutionTree) (n : ExecutionNode) (P T : String) :
    ((alookup (linkStep acc n) P).bind (fun p => alookup p.toolCalls T)).isSome =
      ((alookup acc P).bind (fun p => alookup p.toolCalls T)).isSome := by
  unfold linkStep
  cases hpid : n.parentId with
  | none => rfl
  | some pid =>
      cases htc : n.toolCallId with
      | none => rfl
      | some tcid =>
          cases hpar : alookup acc pid with
          | none => simp [hpar]
          | some parent =>
              cases htcc : alookup parent.toolCalls tcid with
              | none => simp [hpar, htcc]
              | some tc =>
                  simp only [hpar, htcc]
                  rw [alookup_updateAssoc]
                  by_cases hpp : P = pid
                  · subst hpp
                    rw [if_pos rfl, hpar]
                    simp only [Option.map_some', Option.some_bind]
                    unfold setChildAgent
                    rw [alookup_updateAssoc]
                    by_cases htt : T = tcid
                    · subst htt
                      rw [if_pos rfl, htcc]
                      simp
                    · rw [if_neg htt]
                  · rw [if_neg hpp]

theorem linkFold_childAgent (values : List ExecutionNode) :
    ∀ (acc : ExecutionTree) (B P T : String),
      ((alookup acc P).bind (fun p => alookup p.toolCalls T)).isSome = true →
      (∀ n ∈ values, n.parentId = some P → n.toolCallId = some T → n.runId = B) →
      childAgentAt (values.foldl linkStep acc) P T =
        (if values.any (fun n => n.parentId = some P && n.toolCallId = some T) = true
         then some B
         else childAgentAt acc P T) := by
  induction values with
  | nil =>
      intro acc B P T hkey hw
      simp
  | cons n values ih =>
      intro acc B P T hkey hw
      rw [List.foldl_cons]
      have hkey2 : ((alookup (linkStep acc n) P).bind
          (fun p => alookup p.toolCalls T)).isSome = true := by
        rw [linkStep_key_isSome]
        exact hkey
      rw [ih (linkStep acc n) B P T hkey2 (fun m hm hm1 hm2 =>
        hw m (List.mem_cons_of_mem n hm) hm1 hm2)]
      by_cases hwn : n.parentId = some P ∧ n.toolCallId = some T
      · have hB : n.runId = B := hw n (List.mem_cons_self n values) hwn.1 hwn.2
        have hca : childAgentAt (linkStep acc n) P T = some B := by
          rw [linkStep_writer acc n P T hkey hwn.1 hwn.2, hB]
        rw [hca]
        simp [List.any_cons, hwn.1, hwn.2]
      · rw [linkStep_childAgentAt_other acc n P T hwn]
        have hfalse : (n.parentId = some P && n.toolCallId = some T) = false := by
          by_cases h1 : n.parentId = some P
          · have h2 : ¬n.toolCallId = some T := fun h2 => hwn ⟨h1, h2⟩
            simp [h1, h2]
          · simp [h1]
        simp only [List.any_cons, hfalse, Bool.false_or]

theorem jsStr_some_of_ne {s : String} (h : s ≠ "") : jsStr (some s) = some s := by
  simp [jsStr, h]

theorem jsStr_some_ne_empty {o : Option String} {s : String} (h : jsStr o = some s) :
    s ≠ "" := by
  cases o with
  | none => simp [jsStr] at h
  | some s0 =>
      by_cases h0 : s0 = ""
      · simp [jsStr, h0] at h
      · simp [jsStr, h0] at h
        subst h
        exact h0

theorem find?_append_none {α : Type} (p : α → Bool) (l1 l2 : List α)
    (h : l1.find? p = none) : (l1 ++ l2).find? p = l2.find? p := by
  induction l1 with
  | nil => simp
  | cons a l1 ih =>
      by_cases ha : p a
      · rw [List.find?_cons_of_pos _ ha] at h
        cases h
      · rw [List.find?_cons_of_neg _ ha] at h
        rw [List.cons_append, List.find?_cons_of_neg _ ha]
        exact ih h

theorem find?_append_some {α : Type} (p : α → Bool) (l1 l2 : List α) (a : α)
    (h : l1.find? p = some a) : (l1 ++ l2).find? p = some a := by
  induction l1 with
  | nil => simp [List.find?] at h
  | cons b l1 ih =>
      by_cases hb : p b
      · rw [List.find?_cons_of_pos _ hb] at h
        rw [List.cons_append, List.find?_cons_of_pos _ hb]
        exact h
      · rw [List.find?_cons_of_neg _ hb] at h
        rw [List.cons_append, List.find?_cons_of_neg _ hb]
        exact ih h

theorem linked_tree_childAgent (L : List StreamEvent) (B P T : String)
    (hPne : P ≠ "") (hBne : B ≠ "")
    (hruns : ∀ e ∈ L, e.runId = B ∨ e.runId = P)
    (eB : StreamEvent)
    (hfindB : L.find? (fun e => e.runId = B) = some eB)
    (hBpar : jsStr eB.parentId = some P) (hBtc : jsStr eB.toolCallId = some T)
    (eP : StreamEvent)
    (hfindP : L.find? (fun e => e.runId = P) = some eP)
    (hPnw : ¬(jsStr eP.parentId = some P ∧ jsStr eP.toolCallId = some T))
    (hstart : ∃ e, e ∈ L.filter (fun e => e.runId = P) ∧
       e.type = EventType.toolCallStart ∧ payloadToolCallId e = some T) :
    childAgentAt (buildExecutionTree L) P T = some B := by
  unfold buildExecutionTree linkChildren
  have hmtl : ∀ k, alookup (((groupEvents L).map (fun p => (p.1, setTimes p.2))).map
        (fun p => (p.1, processToolEvents p.2))) k =
      (alookup (groupEvents L) k).map (fun nn => processToolEvents (setTimes nn)) := by
    intro k
    rw [alookup_map_value, alookup_map_value, Option.map_map]
    rfl
  have hGP : alookup (groupEvents L) P =
      some (bucketNode eP (L.filter (fun e => e.runId = P))) := by
    rw [groupEvents_lookup L P hPne, hfindP]
    rfl
  have hGB : alookup (groupEvents L) B =
      some (bucketNode eB (L.filter (fun e => e.runId = B))) := by
    rw [groupEvents_lookup L B hBne, hfindB]
    rfl
  have hkey : ((alookup (((groupEvents L).map (fun p => (p.1, setTimes p.2))).map
        (fun p => (p.1, processToolEvents p.2))) P).bind
      (fun p => alookup p.toolCalls T)).isSome = true := by
    rw [hmtl P, hGP]
    simp only [Option.map_some', Option.some_bind, procNode_toolCalls]
    have hev : (bucketNode eP (L.filter (fun e => e.runId = P))).events =
        L.filter (fun e => e.runId = P) := rfl
    rw [hev, buildToolCalls_key_isSome]
    obtain ⟨e, hef, het, heid⟩ := hstart
    refine List.any_eq_true.mpr ⟨e, hef, ?_⟩
    simp [het, heid]
  have hwriters : ∀ n ∈ (((groupEvents L).map (fun p => (p.1, setTimes p.2))).map
        (fun p => (p.1, processToolEvents p.2))).map (·.2),
      n.parentId = some P → n.toolCallId = some T → n.runId = B := by
    intro n hn hp ht
    simp only [List.map_map, List.mem_map, Function.comp] at hn
    obtain ⟨⟨k, m⟩, hkm, hn2⟩ := hn
    have hnm : n = processToolEvents (setTimes m) := by
      rw [← hn2]
    obtain ⟨hkne, e0, hfind0, hbn⟩ := groupEvents_mem_char L k m hkm
    have hk0 : e0.runId = k := by simpa using List.find?_some hfind0
    have he0L : e0 ∈ L := List.mem_of_find?_eq_some hfind0
    have hnpar : n.parentId = jsStr e0.parentId := by
      rw [hnm, procNode_parentId, hbn]
      rfl
    have hntc : n.toolCallId = jsStr e0.toolCallId := by
      rw [hnm, procNode_toolCallId, hbn]
      rfl
    have hnrun : n.runId = k := by
      rw [hnm, procNode_runId, hbn]
      exact hk0
    rcases hruns e0 he0L with hB | hP2
    · rw [hnrun, ← hk0, hB]
    · have hkP : k = P := by rw [← hk0, hP2]
      subst hkP
      have he0P : e0 = eP := by
        rw [hfind0] at hfindP
        exact Option.some.inj hfindP
      subst he0P
      exact absurd ⟨hnpar ▸ hp, hntc ▸ ht⟩ hPnw
  have hany : ((((groupEvents L).map (fun p => (p.1, setTimes p.2))).map
        (fun p => (p.1, processToolEvents p.2))).map (·.2)).any
      (fun n => n.parentId = some P && n.toolCallId = some T) = true := by
    refine List.any_eq_true.mpr
      ⟨processToolEvents (setTimes (bucketNode eB (L.filter (fun e => e.runId = B)))),
        ?_, ?_⟩
    · simp only [List.map_map, List.mem_map, Function.comp]
      exact ⟨(B, bucketNode eB (L.filter (fun e => e.runId = B))), alookup_mem hGB, rfl⟩
    · rw [procNode_parentId, procNode_toolCallId]
      have h1 : (bucketNode eB (L.filter (fun e => e.runId = B))).parentId =
          jsStr eB.parentId := rfl
      have h2 : (bucketNode eB (L.filter (fun e => e.runId = B))).toolCallId =
          jsStr eB.toolCallId := rfl
      rw [h1, h2, hBpar, hBtc]
      simp
  rw [linkFold_childAgent _ _ B P T hkey hwriters, if_pos hany]

/-- C5 (amended): when the child's events all carry `runId=B`, `parentId=P`,
`toolCallId=T`, the parent's events all carry `runId=P` and include a
`tool-call-start` for `T`, and the parent's own node does not itself carry
`parentId=P` with `toolCallId=T`, the rebuilt tree links the parent's tool
call `T` to child `B` identically whether the child's events precede or
follow the parent's. -/
theorem childAgent_link_order_invariant (cs ps : List StreamEvent) (B P T : String)
    (hPne : P ≠ "") (hBne : B ≠ "") (hBP : B ≠ P)
    (hcs : cs ≠ [])
    (hcsAll : ∀ e ∈ cs, e.runId = B ∧ e.parentId = some P ∧ e.toolCallId = some T)
    (hpsAll : ∀ e ∈ ps, e.runId = P)
    (hstart : ∃ e ∈ ps, e.type = EventType.toolCallStart ∧ payloadToolCallId e = some T)
    (hnoSelf : ∀ e0, ps.head? = some e0 →
       ¬(jsStr e0.parentId = some P ∧ jsStr e0.toolCallId = some T)) :
    childAgentAt (buildExecutionTree (cs ++ ps)) P T = some B ∧
    childAgentAt (buildExecutionTree (ps ++ cs)) P T = some B := by
  obtain ⟨e, heps, het, heid⟩ := hstart
  have hTne : T ≠ "" := jsStr_some_ne_empty heid
  cases cs with
  | nil => exact absurd rfl hcs
  | cons c0 cs' =>
  cases ps with
  | nil => simp at heps
  | cons p0 ps' =>
  have hc0 := hcsAll c0 (List.mem_cons_self c0 cs')
  have hp0run : p0.runId = P := hpsAll p0 (List.mem_cons_self p0 ps')
  have hfcsB : (c0 :: cs').find? (fun e => e.runId = B) = some c0 :=
    List.find?_cons_of_pos _ (by simp [hc0.1])
  have hfpsB : (p0 :: ps').find? (fun e => e.runId = B) = none := by
    rw [List.find?_eq_none]
    intro x hx
    simp only [hpsAll x hx, decide_eq_true_eq]
    exact Ne.symm hBP
  have hfcsP : (c0 :: cs').find? (fun e => e.runId = P) = none := by
    rw [List.find?_eq_none]
    intro x hx
    simp only [(hcsAll x hx).1, decide_eq_true_eq]
    exact hBP
  have hfpsP : (p0 :: ps').find? (fun e => e.runId = P) = some p0 :=
    List.find?_cons_of_pos _ (by simp [hp0run])
  have hBpar : jsStr c0.parentId = some P := by
    rw [hc0.2.1]
    exact jsStr_some_of_ne hPne
  have hBtc : jsStr c0.toolCallId = some T := by
    rw [hc0.2.2]
    exact jsStr_some_of_ne hTne
  have hPnw := hnoSelf p0 rfl
  constructor
  · refine linked_tree_childAgent ((c0 :: cs') ++ (p0 :: ps')) B P T hPne hBne ?_ c0
      ?_ hBpar hBtc p0 ?_ hPnw ?_
    · intro x hx
      rcases List.mem_append.mp hx with hx | hx
      · exact Or.inl (hcsAll x hx).1
      · exact Or.inr (hpsAll x hx)
    · exact find?_append_some _ _ _ _ hfcsB
    · rw [find?_append_none _ _ _ hfcsP]
      exact hfpsP
    · refine ⟨e, ?_, het, heid⟩
      rw [List.mem_filter]
      refine ⟨List.mem_append.mpr (Or.inr heps), ?_⟩
      simp [hpsAll e heps]
  · refine linked_tree_childAgent ((p0 :: ps') ++ (c0 :: cs')) B P T hPne hBne ?_ c0
      ?_ hBpar hBtc p0 ?_ hPnw ?_
    · intro x hx
      rcases List.mem_append.mp hx with hx | hx
      · exact Or.inr (hpsAll x hx)
      · exact Or.inl (hcsAll x hx).1
    · rw [find?_append_none _ _ _ hfpsB]
      exact hfcsB
    · exact find?_append_some _ _ _ _ hfpsP
    · refine ⟨e, ?_, het, heid⟩
      rw [List.mem_filter]
      refine ⟨List.mem_append.mpr (Or.inl heps), ?_⟩
      simp [hpsAll e heps]

/-- Witness for C5's amended claim at a concrete child/parent pair. -/
theorem childAgent_link_order_invariant_witness :
    childAgentAt (buildExecutionTree (c5wChild ++ c5wParent)) "P" "T" = some "B" ∧
    childAgentAt (buildExecutionTree (c5wParent ++ c5wChild)) "P" "T" = some "B" :=
  childAgent_link_order_invariant c5wChild c5wParent "B" "P" "T"
    (by decide) (by decide) (by decide) (by decide) (by decide) (by decide) (by decide)
    (by
      intro e0 h
      simp [c5wParent] at h
      subst h
      decide)
